import Mathlib

/-!
Shallow embedding of the terminal command engine of
`src/components/terminal/TerminalOverlay.jsx`: the tokenizer, the engine
state (scrollback lines, input buffer, command history, history cursor,
autocomplete suggestion, theme), the command registry with its built-in
handlers, command dispatch (`runCommand`) and the keyboard handler
(`onKeyDown`), together with theorems settling the specification's claims
about them.
-/

namespace Terminal

/-- The double-quote character (written via its code point). -/
def dq : Char := Char.ofNat 34

/-- The single-quote character (written via its code point). -/
def sq : Char := Char.ofNat 39

/-- Scan for the first occurrence of the closing quote `q` in `cs`.
On success, return the characters before the quote and the characters
after it, mirroring how the regex `"([^"]*)"` consumes a quoted token. -/
def findClose (q : Char) (cs : List Char) : Option (List Char × List Char) :=
  match cs.dropWhile (fun c => c ≠ q) with
  | [] => none
  | _ :: rest => some (cs.takeWhile (fun c => c ≠ q), rest)

/-- Fuel-indexed worker for `tokenize`, mirroring the repeated `re.exec`
loop of the source regex `/"([^"]*)"|'([^']*)'|(\S+)/g`: at each scan
position, whitespace is skipped; a double or single quote with a matching
closing quote yields the enclosed characters as one token (quotes
stripped); otherwise the maximal run of non-whitespace characters is one
token.  The fuel only bounds the recursion; `tokenize` supplies enough
fuel that it is never exhausted. -/
def tokenizeAux : Nat → List Char → List String
  | 0, _ => []
  | _ + 1, [] => []
  | fuel + 1, c :: cs =>
    if c.isWhitespace then tokenizeAux fuel cs
    else if c = dq ∨ c = sq then
      match findClose c cs with
      | some (body, rest) => body.asString :: tokenizeAux fuel rest
      | none =>
        ((c :: cs).takeWhile (fun x => !x.isWhitespace)).asString ::
          tokenizeAux fuel ((c :: cs).dropWhile (fun x => !x.isWhitespace))
    else
      ((c :: cs).takeWhile (fun x => !x.isWhitespace)).asString ::
        tokenizeAux fuel ((c :: cs).dropWhile (fun x => !x.isWhitespace))

/-- Simple tokenizer that preserves quoted strings (source `tokenize`). -/
def tokenize (s : String) : List String :=
  tokenizeAux (s.toList.length + 1) s.toList

/-- The engine state: scrollback `lines`, the `input` buffer, command
`history` with its cursor `histIdx` (sentinel `-1`), the autocomplete
`suggestion`, the current `theme`, the list of URLs opened through the
capability object, and the ambient date/time strings read by the `date`
and `time` commands. -/
structure EngineState where
  lines : List String
  input : String
  history : List String
  histIdx : Int
  suggestion : String
  theme : String
  opened : List String
  dateStr : String
  timeStr : String
deriving DecidableEq

/-- A value thrown by a handler: either an Error-like object carrying a
`message` field and a `String(err)` rendering, or a plain thrown string. -/
inductive Thrown where
  | errorObj (message : String) (str : String)
  | strVal (s : String)

/-- Rendering of a caught value per `String(err?.message || err || "Unknown error")`:
a non-empty `message` field wins; an object without one falls back to its
string rendering; a thrown falsy value falls back to `"Unknown error"`. -/
def renderThrown : Thrown → String
  | .errorObj m s => if m = "" then s else m
  | .strVal s => if s = "" then "Unknown error" else s

/-- A handler's returned value: an array of lines, a single string, or
nothing renderable (e.g. `undefined`). -/
inductive HandlerRet where
  | arr (ls : List String)
  | str (s : String)
  | nothingRet

/-- A command handler: given the argument list and the current engine
state (standing for the capability object closing over it), it yields the
updated state and either a normal return value or a thrown value. -/
def Handler := List String → EngineState → EngineState × Except Thrown HandlerRet

/-- The hard-coded output of the built-in `help` command. -/
def helpMenu : List String :=
  ["Available commands:",
   "  help                Show this help",
   "  clear               Clear the screen",
   "  echo <text>         Print text",
   "  about               Who is Zeshan?",
   "  skills              Tech stack overview",
   "  projects            List featured projects",
   "  contact             How to reach me",
   "  date | time         Show current date / time",
   "  github              Open GitHub profile",
   "  resume              Open resume PDF",
   "  open <url>          Open a URL",
   "  theme <holo|dark|light>   Switch terminal theme"]

/-- JavaScript `String.prototype.toLowerCase`, modelled over the
character list so that it evaluates by reduction. -/
def jsToLower (s : String) : String :=
  (s.toList.map Char.toLower).asString

/-- JavaScript `s.startsWith(pre)`, modelled over the character lists. -/
def jsStartsWith (s pre : String) : Bool :=
  pre.toList.isPrefixOf s.toList

/-- Case-insensitive test for the regex `^https?:` followed by two
slashes (the scheme test of the built-in `open` command). -/
def hasHttpScheme (s : String) : Bool :=
  jsStartsWith (jsToLower s) "http://" || jsStartsWith (jsToLower s) "https://"

/-- The built-in `help` handler: returns the hard-coded menu. -/
def helpH : Handler := fun _ st => (st, .ok (.arr helpMenu))

/-- The built-in `clear` handler: empties scrollback and returns `""`. -/
def clearH : Handler := fun _ st => ({ st with lines := [] }, .ok (.str ""))

/-- The built-in `echo` handler: joins the arguments with spaces. -/
def echoH : Handler := fun args st => (st, .ok (.str (String.intercalate " " args)))

/-- The built-in `about` handler. -/
def aboutH : Handler := fun _ st =>
  (st, .ok (.arr
    ["User: Zeshan Basaran",
     "Specialization: Pattern Recognition & Predictive Modeling",
     "Clearance: Data Analyst / Computer Scientist",
     "Motto: Analyzing patterns, engineering solutions, shaping the future."]))

/-- The built-in `skills` handler. -/
def skillsH : Handler := fun _ st =>
  (st, .ok (.arr
    ["Languages: Python, Java, Kotlin, SQL, JavaScript/TypeScript, Go (learning)",
     "Data: pandas, scikit-learn, Plotly, Dash, Streamlit, NumPy",
     "Web: Astro, React, Tailwind, Node, REST APIs",
     "DB: SQLite, MySQL, Postgres",
     "Tools: Git, Docker, Jupyter, VS Code"]))

/-- The built-in `projects` handler. -/
def projectsH : Handler := fun _ st =>
  (st, .ok (.arr
    ["1) Systematic Trading Backtester & Risk Monitor  —  Python + Streamlit",
     "2) Quantitative Factor Analytics Platform        —  Python + Dash",
     "3) Sci-Fi Portfolio (this site)                 —  Astro + Tailwind",
     "Tip: click Projects in the top nav for interactive previews."]))

/-- The built-in `contact` handler. -/
def contactH : Handler := fun _ st =>
  (st, .ok (.arr
    ["Email: zeshanbasaran@gmail.com",
     "LinkedIn: /in/zeshanbasaran",
     "Location: Baltimore, MD (US-ET)"]))

/-- The built-in `date` handler: formats the ambient date. -/
def dateH : Handler := fun _ st => (st, .ok (.str st.dateStr))

/-- The built-in `time` handler: formats the ambient time. -/
def timeH : Handler := fun _ st => (st, .ok (.str st.timeStr))

/-- The built-in `github` handler: opens the GitHub profile. -/
def githubH : Handler := fun _ st =>
  ({ st with opened := st.opened ++ ["https://github.com/zeshanbasaran"] },
   .ok (.str "Opening GitHub in a new tab…"))

/-- The built-in `resume` handler: opens the resume PDF. -/
def resumeH : Handler := fun _ st =>
  ({ st with opened := st.opened ++ ["/resume.pdf"] },
   .ok (.str "Opening resume…"))

/-- The built-in `open` handler: usage line without an argument, else
opens the URL, prepending a scheme when absent. -/
def openH : Handler := fun args st =>
  let a0 := args.getD 0 ""
  if a0 = "" then (st, .ok (.str "Usage: open <url>"))
  else
    let url := if hasHttpScheme a0 then a0 else "https://" ++ a0
    ({ st with opened := st.opened ++ [url] },
     .ok (.str ("Opening " ++ url ++ "…")))

/-- The built-in `theme` handler: lowercases the first argument, prints a
usage line when it is outside the closed token set, else switches the
theme and prints a confirmation. -/
def themeH : Handler := fun args st =>
  let t := jsToLower (args.getD 0 "")
  if !(["holo", "dark", "light"].contains t) then
    (st, .ok (.str "Usage: theme <holo|dark|light>"))
  else
    ({ st with theme := t }, .ok (.str ("Theme set to " ++ t ++ ".")))

/-- The built-in command table, in source order. -/
def builtin : List (String × Handler) :=
  [("help", helpH), ("clear", clearH), ("echo", echoH), ("about", aboutH),
   ("skills", skillsH), ("projects", projectsH), ("contact", contactH),
   ("date", dateH), ("time", timeH), ("github", githubH), ("resume", resumeH),
   ("open", openH), ("theme", themeH)]

/-- The merged registry `\x7b ...builtin, ...userCommands \x7d`: built-in
entries overlaid with caller-supplied entries at construction. -/
def commands (userCommands : List (String × Handler)) : List (String × Handler) :=
  builtin ++ userCommands

/-- Registry lookup; a later (caller-supplied) entry for a name shadows an
earlier (built-in) one, as object spread does. -/
def lookupCmd (reg : List (String × Handler)) (name : String) : Option Handler :=
  match reg.reverse.find? (fun p => p.1 == name) with
  | some p => some p.2
  | none => none

/-- Lexicographic comparison of character lists by code point (the
default JavaScript `Array.prototype.sort` string order). -/
def charListLt : List Char → List Char → Bool
  | _, [] => false
  | [], _ :: _ => true
  | a :: as, b :: bs =>
    if a.toNat < b.toNat then true
    else if b.toNat < a.toNat then false
    else charListLt as bs

/-- String comparison used when sorting command names. -/
def jsLt (a b : String) : Bool := charListLt a.toList b.toList

/-- Insertion step for sorting command names. -/
def insertSorted (s : String) : List String → List String
  | [] => [s]
  | x :: xs => if jsLt s x then s :: x :: xs else x :: insertSorted s xs

/-- Sort a list of strings (insertion sort; `Object.keys(...).sort()`). -/
def sortStrings (l : List String) : List String := l.foldr insertSorted []

/-- The sorted list of registry keys (`commandNames` in the source). -/
def commandNames (reg : List (String × Handler)) : List String :=
  sortStrings (reg.map Prod.fst).dedup

/-- JavaScript `String.prototype.trim`: strip whitespace from both ends
(modelled over the character list so that it evaluates by reduction). -/
def jsTrim (s : String) : String :=
  (((s.toList.dropWhile Char.isWhitespace).reverse.dropWhile
      Char.isWhitespace).reverse).asString

/-- Last `n` entries of a list (`Array.prototype.slice(-n)`). -/
def sliceLast (n : Nat) (l : List String) : List String := l.drop (l.length - n)

/-- The submission bookkeeping performed by `runCommand` before dispatch:
echo the raw line to scrollback as `"$ " ++ raw`, append the raw line to
history keeping only the last 99 previous entries, and reset the history
cursor to the sentinel. -/
def recordSubmission (raw : String) (st : EngineState) : EngineState :=
  { st with lines := st.lines ++ ["$ " ++ raw],
            history := sliceLast 99 st.history ++ [raw],
            histIdx := -1 }

/-- The scrollback line reporting an unknown command. -/
def notFoundLine (cmd : String) : String :=
  "Command not found: " ++ cmd ++ ". Type \x27help\x27."

/-- Rendering of a handler's returned value: each array element becomes a
scrollback line; a non-empty string becomes one line; anything else
appends nothing. -/
def renderRet (st : EngineState) : HandlerRet → EngineState
  | .arr ls => { st with lines := st.lines ++ ls }
  | .str s => if s.length > 0 then { st with lines := st.lines ++ [s] } else st
  | .nothingRet => st

/-- Dispatch of an already-recorded submission: tokenize, look the first
token up in the registry, report `Command not found` on a miss, otherwise
run the handler, render its return value, and render a thrown value as a
single scrollback line.  (An empty token list leaves `cmd` undefined in
the source, which then fails the lookup and is reported with the text
`undefined`; this branch is unreachable from a non-blank submission.) -/
def dispatch (reg : List (String × Handler)) (raw : String) (st : EngineState) :
    EngineState :=
  match tokenize raw with
  | [] => { st with lines := st.lines ++ [notFoundLine "undefined"] }
  | cmd :: args =>
    match lookupCmd reg cmd with
    | none => { st with lines := st.lines ++ [notFoundLine cmd] }
    | some h =>
      match h args st with
      | (st2, .ok ret) => renderRet st2 ret
      | (st2, .error t) => { st2 with lines := st2.lines ++ [renderThrown t] }

/-- Execution of one submitted line (source `runCommand`): a line that is
blank after trimming is a no-op; otherwise the submission is recorded
(echo line, history entry, cursor reset) and then dispatched. -/
def runCommand (reg : List (String × Handler)) (raw : String) (st : EngineState) :
    EngineState :=
  if jsTrim raw = "" then st else dispatch reg raw (recordSubmission raw st)

/-- The keyboard events handled by the source `onKeyDown` that affect the
engine state.  (Escape only closes the overlay and touches no engine
state, so it is not modelled.) -/
inductive Key where
  | arrowUp
  | arrowDown
  | enter
  | tab

/-- Replacement of the leading non-whitespace run of `input` by `m`
(`input.replace(regex-anchored-nonspace-run, m)`): when `input` starts with
a non-whitespace character, that maximal run is replaced; otherwise the
anchored pattern does not match and `input` is returned unchanged. -/
def replaceLeadingRun (input m : String) : String :=
  match input.toList with
  | [] => input
  | c :: _ =>
    if c.isWhitespace then input
    else m ++ (input.toList.dropWhile (fun x => !x.isWhitespace)).asString

/-- The source `onKeyDown` handler, restricted to the engine state:
ArrowUp/ArrowDown navigate history, Enter submits the input buffer, and
Tab autocompletes on the first token of the input buffer. -/
def onKeyDown (reg : List (String × Handler)) (k : Key) (st : EngineState) :
    EngineState :=
  match k with
  | .arrowUp =>
    if st.history.length = 0 then st
    else
      let ni : Int :=
        if st.histIdx < 0 then (st.history.length : Int) - 1
        else max 0 (st.histIdx - 1)
      { st with histIdx := ni, input := st.history.getD ni.toNat "" }
  | .arrowDown =>
    if st.histIdx < 0 then st
    else
      let ni : Int := st.histIdx + 1
      if (st.history.length : Int) ≤ ni then { st with histIdx := -1, input := "" }
      else { st with histIdx := ni, input := st.history.getD ni.toNat "" }
  | .enter =>
    runCommand reg st.input { st with input := "", suggestion := "" }
  | .tab =>
    let tok := (tokenize st.input).headD ""
    if tok = "" then st
    else
      match (commandNames reg).filter (fun c => jsStartsWith c tok) with
      | [] => st
      | [m] => { st with input := replaceLeadingRun st.input m, suggestion := "" }
      | ms => { st with suggestion := String.intercalate "  " ms }

/-- The input-change path (the `onChange` handler together with the
suggestion effect): store the new input and recompute the suggestion,
which shows the unique prefix match of the first token, or nothing. -/
def onInputChange (reg : List (String × Handler)) (s : String) (st : EngineState) :
    EngineState :=
  let st1 := { st with input := s }
  let tok := (tokenize s).headD ""
  if tok = "" then { st1 with suggestion := "" }
  else
    match (commandNames reg).filter (fun c => jsStartsWith c tok) with
    | [m] => { st1 with suggestion := m }
    | _ => { st1 with suggestion := "" }

/-- A fresh engine state as constructed by the component: empty
scrollback (the boot banner is omitted), empty input, empty history,
cursor at the sentinel, no suggestion, the starting theme, and the
ambient date/time strings. -/
def initState (startTheme d t : String) : EngineState :=
  { lines := [], input := "", history := [], histIdx := -1, suggestion := "",
    theme := startTheme, opened := [], dateStr := d, timeStr := t }

/-- Iterated submission of a list of raw lines, oldest first. -/
def runAll (reg : List (String × Handler)) (raws : List String)
    (st : EngineState) : EngineState :=
  raws.foldl (fun s r => runCommand reg r s) st

/-- Iterated key presses. -/
def pressAll (reg : List (String × Handler)) (ks : List Key)
    (st : EngineState) : EngineState :=
  ks.foldl (fun s k => onKeyDown reg k s) st

/-- Fuel-indexed splitting on whitespace alone, the specification's
baseline description of tokenization in the absence of quote characters:
maximal runs of non-whitespace characters become the tokens. -/
def wsSplitAux : Nat → List Char → List String
  | 0, _ => []
  | _ + 1, [] => []
  | fuel + 1, c :: cs =>
    if c.isWhitespace then wsSplitAux fuel cs
    else
      ((c :: cs).takeWhile (fun x => !x.isWhitespace)).asString ::
        wsSplitAux fuel ((c :: cs).dropWhile (fun x => !x.isWhitespace))

/-- Modelled from the spec: plain whitespace splitting (the tokenization
contract with no quoted substrings involved). -/
def wsSplit (s : String) : List String :=
  wsSplitAux (s.toList.length + 1) s.toList

/-- A registry whose handlers never touch the history, the history
cursor, the input buffer or the suggestion — true of every handler built
from the source capability object, which only exposes append-line,
open-a-URL and set-theme (plus the clear command's scrollback reset). -/
def PreservesNav (reg : List (String × Handler)) : Prop :=
  ∀ name h, lookupCmd reg name = some h →
    ∀ args st,
      ((h args st).1.history = st.history ∧ (h args st).1.histIdx = st.histIdx ∧
       (h args st).1.input = st.input ∧ (h args st).1.suggestion = st.suggestion)

/-- A caller-supplied `history` command used to reproduce the
specification's autocomplete scenario with registry keys `help`/`history`. -/
def historyH : Handler := fun _ st => (st, .ok (.str "history is a user command"))

/-- A caller-supplied command whose name occurs in no built-in help line,
used to probe whether `help` lists caller-added commands. -/
def fooH : Handler := fun _ st => (st, .ok (.str "foo output"))

/-- A caller-supplied handler that always throws an Error whose message
is `boom failure`. -/
def boomH : Handler := fun _ st =>
  (st, .error (.errorObj "boom failure" "Error: boom failure"))

/-- Substring occurrence test over character lists, used to state that a
command name is mentioned somewhere in a help line. -/
def occursIn (needle : List Char) : List Char → Bool
  | [] => needle.isEmpty
  | c :: cs => needle.isPrefixOf (c :: cs) || occursIn needle cs

/-- Length of the kept history slice: at most the 99 most recent entries. -/
theorem sliceLast_length (n : Nat) (l : List String) :
    (sliceLast n l).length = min l.length n := by
  simp [sliceLast]
  omega

/-- Below the bound, the slice keeps the whole history. -/
theorem sliceLast_of_le {n : Nat} {l : List String} (h : l.length ≤ n) :
    sliceLast n l = l := by
  have h0 : l.length - n = 0 := by omega
  simp [sliceLast, h0]

/-- At length 100, the 99-slice drops exactly the oldest entry. -/
theorem sliceLast99_of_eq100 {l : List String} (h : l.length = 100) :
    sliceLast 99 l = l.drop 1 := by
  simp [sliceLast, h]

/-- On inputs free of quote characters, the tokenizer is plain
whitespace splitting. -/
theorem tokenizeAux_eq_wsSplitAux :
    ∀ (fuel : Nat) (l : List Char), (∀ c ∈ l, c ≠ dq ∧ c ≠ sq) →
      tokenizeAux fuel l = wsSplitAux fuel l := by
  intro fuel
  induction fuel with
  | zero => intro l _; rfl
  | succ n ih =>
    intro l hl
    cases l with
    | nil => rfl
    | cons c cs =>
      have hc := hl c (List.mem_cons_self c cs)
      have hq : ¬(c = dq ∨ c = sq) := by
        rcases hc with ⟨h1, h2⟩
        intro hor
        rcases hor with h | h
        · exact h1 h
        · exact h2 h
      by_cases hw : c.isWhitespace = true
      · simp only [tokenizeAux, wsSplitAux, hw, if_true]
        exact ih cs (fun x hx => hl x (List.mem_cons_of_mem c hx))
      · simp only [tokenizeAux, wsSplitAux, hw, if_false, hq]
        have ihd := ih ((c :: cs).dropWhile (fun x => !x.isWhitespace))
          (fun x hx => hl x ((List.dropWhile_sublist _).subset hx))
        rw [ihd]
        rfl

/-- A successful registry lookup returns a handler stored in the registry. -/
theorem lookupCmd_mem {reg : List (String × Handler)} {name : String} {h : Handler}
    (hl : lookupCmd reg name = some h) : ∃ p ∈ reg, p.2 = h := by
  unfold lookupCmd at hl
  cases hfind : reg.reverse.find? (fun p => p.1 == name) with
  | none => rw [hfind] at hl; exact absurd hl (by simp)
  | some p =>
    rw [hfind] at hl
    have hmem : p ∈ reg.reverse := List.mem_of_find?_eq_some hfind
    rw [List.mem_reverse] at hmem
    refine ⟨p, hmem, ?_⟩
    injection hl

/-- Every built-in handler leaves history, history cursor, input buffer
and suggestion untouched: the capability object exposes no way to change
them. -/
theorem builtin_handler_preservesNav :
    ∀ p ∈ builtin, ∀ (args : List String) (st : EngineState),
      (p.2 args st).1.history = st.history ∧ (p.2 args st).1.histIdx = st.histIdx ∧
      (p.2 args st).1.input = st.input ∧ (p.2 args st).1.suggestion = st.suggestion := by
  intro p hp args st
  simp only [builtin, List.mem_cons, List.not_mem_nil, or_false] at hp
  rcases hp with rfl | rfl | rfl | rfl | rfl | rfl | rfl | rfl | rfl | rfl | rfl | rfl | rfl <;>
    first
      | exact ⟨rfl, rfl, rfl, rfl⟩
      | (dsimp only [openH, themeH]; split <;> exact ⟨rfl, rfl, rfl, rfl⟩)

/-- The default registry (no caller-supplied commands) preserves all
navigation state. -/
theorem commandsNil_preservesNav : PreservesNav (commands []) := by
  intro name h hl args st
  obtain ⟨p, hp, rfl⟩ := lookupCmd_mem hl
  have hp2 : p ∈ builtin := by simpa [commands] using hp
  exact builtin_handler_preservesNav p hp2 args st

/-- Rendering a handler return value only appends scrollback lines. -/
theorem renderRet_preservesNav (st : EngineState) (r : HandlerRet) :
    (renderRet st r).history = st.history ∧ (renderRet st r).histIdx = st.histIdx ∧
    (renderRet st r).input = st.input ∧ (renderRet st r).suggestion = st.suggestion := by
  cases r with
  | arr ls => exact ⟨rfl, rfl, rfl, rfl⟩
  | str s => dsimp only [renderRet]; split <;> exact ⟨rfl, rfl, rfl, rfl⟩
  | nothingRet => exact ⟨rfl, rfl, rfl, rfl⟩

/-- Dispatch over a navigation-preserving registry never changes history
or the history cursor. -/
theorem dispatch_preservesNav {reg : List (String × Handler)}
    (hreg : PreservesNav reg) (raw : String) (st : EngineState) :
    (dispatch reg raw st).history = st.history ∧
    (dispatch reg raw st).histIdx = st.histIdx := by
  unfold dispatch
  split
  · exact ⟨rfl, rfl⟩
  · split
    · exact ⟨rfl, rfl⟩
    · split
      · rename_i ls cmd args htok oh h hl pr st2 ret hrun
        have hpres := hreg cmd h hl args st
        rw [hrun] at hpres
        have hr := renderRet_preservesNav st2 ret
        exact ⟨hr.1.trans hpres.1, hr.2.1.trans hpres.2.1⟩
      · rename_i ls cmd args htok oh h hl pr st2 t hrun
        have hpres := hreg cmd h hl args st
        rw [hrun] at hpres
        exact ⟨hpres.1, hpres.2.1⟩

/-- C1 (amended): for every non-empty (not whitespace-only) submitted
line, under any registry whose handlers cannot touch navigation state
(true of the source capability object), the engine appends exactly one
echo line `"$ " ++ raw` at the recording step, records the raw line as
exactly one new history entry, resets the history cursor to the sentinel
`-1`, and bounds history by the fixed constant 100: below the bound
history grows by exactly one, and at length 100 the oldest entry is
evicted.  The bound is hard-coded, not configurable at construction. -/
theorem C1_submission_bookkeeping (reg : List (String × Handler)) (raw : String)
    (st : EngineState) (hreg : PreservesNav reg) (h : jsTrim raw ≠ "") :
    runCommand reg raw st = dispatch reg raw (recordSubmission raw st) ∧
    (recordSubmission raw st).lines = st.lines ++ ["$ " ++ raw] ∧
    (runCommand reg raw st).history = sliceLast 99 st.history ++ [raw] ∧
    (runCommand reg raw st).histIdx = -1 ∧
    (runCommand reg raw st).history.length = min st.history.length 99 + 1 ∧
    (st.history.length ≤ 99 → (runCommand reg raw st).history = st.history ++ [raw]) ∧
    (st.history.length = 100 →
      (runCommand reg raw st).history = st.history.drop 1 ++ [raw]) := by
  have hrc : runCommand reg raw st = dispatch reg raw (recordSubmission raw st) := by
    unfold runCommand
    rw [if_neg h]
  have hd := dispatch_preservesNav hreg raw (recordSubmission raw st)
  have hhist : (runCommand reg raw st).history = sliceLast 99 st.history ++ [raw] := by
    rw [hrc, hd.1]
    rfl
  have hidx : (runCommand reg raw st).histIdx = -1 := by
    rw [hrc, hd.2]
    rfl
  refine ⟨hrc, rfl, hhist, hidx, ?_, ?_, ?_⟩
  · rw [hhist]
    simp [sliceLast_length]
  · intro hle
    rw [hhist, sliceLast_of_le hle]
  · intro h100
    rw [hhist, sliceLast99_of_eq100 h100]

/-- C1 witness: the bookkeeping theorem instantiated at the default
registry, the submission `alpha` and a fresh state. -/
theorem C1_witness :
    runCommand (commands []) "alpha" (initState "holo" "" "") =
        dispatch (commands []) "alpha"
          (recordSubmission "alpha" (initState "holo" "" "")) ∧
    (recordSubmission "alpha" (initState "holo" "" "")).lines =
        (initState "holo" "" "").lines ++ ["$ " ++ "alpha"] ∧
    (runCommand (commands []) "alpha" (initState "holo" "" "")).history =
        sliceLast 99 (initState "holo" "" "").history ++ ["alpha"] ∧
    (runCommand (commands []) "alpha" (initState "holo" "" "")).histIdx = -1 ∧
    (runCommand (commands []) "alpha" (initState "holo" "" "")).history.length =
        min (initState "holo" "" "").history.length 99 + 1 ∧
    ((initState "holo" "" "").history.length ≤ 99 →
      (runCommand (commands []) "alpha" (initState "holo" "" "")).history =
        (initState "holo" "" "").history ++ ["alpha"]) ∧
    ((initState "holo" "" "").history.length = 100 →
      (runCommand (commands []) "alpha" (initState "holo" "" "")).history =
        (initState "holo" "" "").history.drop 1 ++ ["alpha"]) :=
  C1_submission_bookkeeping (commands []) "alpha" (initState "holo" "" "")
    commandsNil_preservesNav (by decide)

/-- C1 counterexample: the claim asserts a construction-time configurable
history bound (spec scenario: with bound 3, submitting 4 distinct
commands leaves the last 3).  The engine has no bound parameter: four
distinct submissions from a fresh state always leave all four entries,
which differs from the bound-3 prediction. -/
theorem C1_counterexample :
    (runAll (commands []) ["a", "b", "c", "d"] (initState "holo" "" "")).history =
        ["a", "b", "c", "d"] ∧
    ["a", "b", "c", "d"] ≠ ["b", "c", "d"] := by
  exact ⟨by decide, by decide⟩

/-- C2: submitting a line that is blank after trimming changes nothing:
no echo, no history entry, no cursor move, no output. -/
theorem C2_blank_submission_noop (reg : List (String × Handler)) (raw : String)
    (st : EngineState) (h : jsTrim raw = "") :
    runCommand reg raw st = st := by
  simp [runCommand, h]

/-- C2 witness: a whitespace-only line is a no-op on a fresh state. -/
theorem C2_witness :
    runCommand (commands []) "   " (initState "holo" "Jan 1" "12:00:00") =
      initState "holo" "Jan 1" "12:00:00" :=
  C2_blank_submission_noop (commands []) "   " (initState "holo" "Jan 1" "12:00:00")
    (by decide)

/-- C3: the tokenizer splits on whitespace with quoted substrings kept as
single tokens, quotes stripped: the spec example yields `echo`/`a b`/`c`;
single quotes behave the same; an unterminated quote is handled leniently
(the quote character is simply not matched, the scan continues with plain
tokens and no failure); and on strings without quote characters the
tokenizer is exactly whitespace splitting. -/
theorem C3_tokenizer_contract :
    tokenize "echo \"a b\" c" = ["echo", "a b", "c"] ∧
    tokenize "a \x27b c\x27 d" = ["a", "b c", "d"] ∧
    tokenize "echo \"a b" = ["echo", "\"a", "b"] ∧
    ∀ s : String, (∀ c ∈ s.toList, c ≠ dq ∧ c ≠ sq) → tokenize s = wsSplit s := by
  refine ⟨by decide, by decide, by decide, ?_⟩
  intro s hs
  exact tokenizeAux_eq_wsSplitAux (s.toList.length + 1) s.toList hs

/-- C3 witness: the whitespace-splitting clause applied to a concrete
quote-free string. -/
theorem C3_witness :
    tokenize "alpha beta  gamma" = wsSplit "alpha beta  gamma" :=
  C3_tokenizer_contract.2.2.2 "alpha beta  gamma" (by decide)

/-- C4: a handler that throws during dispatch is caught at the dispatch
boundary: the thrown value is rendered as exactly one scrollback line
(its message text), nothing is propagated, and `runCommand` returns a
normal state. -/
theorem C4_exception_caught (reg : List (String × Handler)) (raw : String)
    (st st2 : EngineState) (cmd : String) (args : List String) (h : Handler)
    (t : Thrown) (htrim : jsTrim raw ≠ "")
    (htok : tokenize raw = cmd :: args)
    (hlook : lookupCmd reg cmd = some h)
    (hrun : h args (recordSubmission raw st) = (st2, Except.error t)) :
    runCommand reg raw st = { st2 with lines := st2.lines ++ [renderThrown t] } := by
  unfold runCommand dispatch
  rw [if_neg htrim]
  simp only [htok, hlook, hrun]

/-- C4 witness: a caller-supplied throwing command renders its Error
message `boom failure` as one line and the engine carries on. -/
theorem C4_witness :
    runCommand (commands [("boom", boomH)]) "boom now" (initState "holo" "" "") =
      { recordSubmission "boom now" (initState "holo" "" "") with
          lines := (recordSubmission "boom now" (initState "holo" "" "")).lines ++
            [renderThrown (.errorObj "boom failure" "Error: boom failure")] } :=
  C4_exception_caught (commands [("boom", boomH)]) "boom now"
    (initState "holo" "" "") (recordSubmission "boom now" (initState "holo" "" ""))
    "boom" ["now"] boomH (.errorObj "boom failure" "Error: boom failure")
    (by decide) (by decide) rfl rfl

/-- C5: when the first token resolves to no registry entry, exactly one
`Command not found` line naming the token and suggesting `help` is
appended after the echo line; history gains the entry, the cursor resets,
and every other state component (input, suggestion, theme, opened,
ambient strings) is untouched. -/
theorem C5_unknown_command (reg : List (String × Handler)) (raw : String)
    (st : EngineState) (cmd : String) (args : List String)
    (htrim : jsTrim raw ≠ "")
    (htok : tokenize raw = cmd :: args)
    (hlook : lookupCmd reg cmd = none) :
    runCommand reg raw st =
      { st with lines := st.lines ++ ["$ " ++ raw, notFoundLine cmd],
                history := sliceLast 99 st.history ++ [raw],
                histIdx := -1 } := by
  unfold runCommand dispatch recordSubmission
  rw [if_neg htrim]
  simp only [htok, hlook]
  simp

/-- C5 witness: an unknown command on a fresh state. -/
theorem C5_witness :
    runCommand (commands []) "frobnicate now" (initState "holo" "" "") =
      { initState "holo" "" "" with
          lines := (initState "holo" "" "").lines ++
            ["$ " ++ "frobnicate now", notFoundLine "frobnicate"],
          history := sliceLast 99 (initState "holo" "" "").history ++ ["frobnicate now"],
          histIdx := -1 } :=
  C5_unknown_command (commands []) "frobnicate now" (initState "holo" "" "")
    "frobnicate" ["now"] (by decide) (by decide) rfl

/-- Full effect of submitting `theme <t>` for a single-token argument
`t` under the default registry: the handler lowercases `t`, validates it
against the closed set, and either switches the theme with one
confirmation line or appends one usage line. -/
theorem runCommand_theme (st : EngineState) (t : String)
    (htrim : jsTrim ("theme " ++ t) ≠ "")
    (htok : tokenize ("theme " ++ t) = ["theme", t]) :
    runCommand (commands []) ("theme " ++ t) st =
      (if (["holo", "dark", "light"].contains (jsToLower t)) = true then
        { st with
            lines := (st.lines ++ ["$ " ++ ("theme " ++ t)]) ++
              ["Theme set to " ++ jsToLower t ++ "."],
            history := sliceLast 99 st.history ++ ["theme " ++ t],
            histIdx := -1, theme := jsToLower t }
      else
        { st with
            lines := (st.lines ++ ["$ " ++ ("theme " ++ t)]) ++
              ["Usage: theme <holo|dark|light>"],
            history := sliceLast 99 st.history ++ ["theme " ++ t],
            histIdx := -1 }) := by
  unfold runCommand dispatch
  rw [if_neg htrim]
  have hl : lookupCmd (commands []) "theme" = some themeH := rfl
  simp only [htok, hl]
  cases hcv : (["holo", "dark", "light"].contains (jsToLower t)) with
  | true =>
    have e1 : themeH [t] (recordSubmission ("theme " ++ t) st) =
        ({ recordSubmission ("theme " ++ t) st with theme := jsToLower t },
          Except.ok (.str ("Theme set to " ++ jsToLower t ++ "."))) := by
      unfold themeH
      dsimp only
      rw [show ([t].getD 0 "") = t from rfl, hcv]
      rfl
    simp only [e1]
    dsimp only [renderRet]
    rw [if_pos (by
      have h13 : (0 : Nat) < "Theme set to ".length := by decide
      simp only [String.length_append]
      omega)]
    rfl
  | false =>
    have e2 : themeH [t] (recordSubmission ("theme " ++ t) st) =
        (recordSubmission ("theme " ++ t) st,
          Except.ok (.str "Usage: theme <holo|dark|light>")) := by
      unfold themeH
      dsimp only
      rw [show ([t].getD 0 "") = t from rfl, hcv]
      rfl
    simp only [e2]
    dsimp only [renderRet]
    rw [if_pos (by decide)]
    rfl

/-- C6 (amended): submitting `theme <t>` switches the theme and appends
exactly one confirmation line precisely when the lowercased argument is
in the closed set (holo, dark, light); otherwise the theme is unchanged
and exactly one usage line is appended.  It is the lowercased argument,
not the raw one, that is validated. -/
theorem C6_theme_validation (st : EngineState) (t : String)
    (htrim : jsTrim ("theme " ++ t) ≠ "")
    (htok : tokenize ("theme " ++ t) = ["theme", t]) :
    ((["holo", "dark", "light"].contains (jsToLower t)) = true →
      runCommand (commands []) ("theme " ++ t) st =
        { st with
            lines := (st.lines ++ ["$ " ++ ("theme " ++ t)]) ++
              ["Theme set to " ++ jsToLower t ++ "."],
            history := sliceLast 99 st.history ++ ["theme " ++ t],
            histIdx := -1, theme := jsToLower t }) ∧
    ((["holo", "dark", "light"].contains (jsToLower t)) = false →
      runCommand (commands []) ("theme " ++ t) st =
        { st with
            lines := (st.lines ++ ["$ " ++ ("theme " ++ t)]) ++
              ["Usage: theme <holo|dark|light>"],
            history := sliceLast 99 st.history ++ ["theme " ++ t],
            histIdx := -1 }) := by
  constructor
  · intro hc
    rw [runCommand_theme st t htrim htok, if_pos hc]
  · intro hc
    rw [runCommand_theme st t htrim htok, if_neg (by rw [hc]; decide)]

/-- C6 witness: `theme dark` on a fresh holo state switches the theme
with one confirmation line. -/
theorem C6_witness :
    runCommand (commands []) ("theme " ++ "dark") (initState "holo" "" "") =
      { initState "holo" "" "" with
          lines := ((initState "holo" "" "").lines ++ ["$ " ++ ("theme " ++ "dark")]) ++
            ["Theme set to " ++ jsToLower "dark" ++ "."],
          history := sliceLast 99 (initState "holo" "" "").history ++ ["theme " ++ "dark"],
          histIdx := -1, theme := jsToLower "dark" } :=
  (C6_theme_validation (initState "holo" "" "") "dark" (by decide) (by decide)).1
    (by decide)

/-- C6 counterexample: `DARK` is outside the closed set (the claim's
`otherwise` branch then demands an unchanged theme and a usage line), yet
the engine switches the theme to `dark` and prints a confirmation,
because validation happens after lowercasing. -/
theorem C6_counterexample :
    (runCommand (commands []) "theme DARK" (initState "holo" "" "")).theme = "dark" ∧
    (initState "holo" "" "").theme = "holo" ∧
    (runCommand (commands []) "theme DARK" (initState "holo" "" "")).lines =
      ["$ theme DARK", "Theme set to dark."] ∧
    ¬ ("DARK" = "holo" ∨ "DARK" = "dark" ∨ "DARK" = "light") := by
  refine ⟨by decide, by decide, by decide, by decide⟩

/-- C10: the `theme` argument is matched case-insensitively: the handler
lowercases it before validating, the theme becomes the lowercased token
exactly when that token is in the closed set, and the usage branch is
taken exactly when the lowercased argument is outside the set. -/
theorem C10_theme_lowercased (st : EngineState) (t : String)
    (htrim : jsTrim ("theme " ++ t) ≠ "")
    (htok : tokenize ("theme " ++ t) = ["theme", t]) :
    (runCommand (commands []) ("theme " ++ t) st).theme =
      (if (["holo", "dark", "light"].contains (jsToLower t)) = true then jsToLower t
       else st.theme) ∧
    (runCommand (commands []) ("theme " ++ t) st).lines =
      st.lines ++ ["$ " ++ ("theme " ++ t),
        if (["holo", "dark", "light"].contains (jsToLower t)) = true then
          "Theme set to " ++ jsToLower t ++ "."
        else "Usage: theme <holo|dark|light>"] := by
  rw [runCommand_theme st t htrim htok]
  cases hcv : (["holo", "dark", "light"].contains (jsToLower t)) with
  | true => exact ⟨rfl, by simp⟩
  | false => exact ⟨rfl, by simp⟩

/-- C10 witness: `theme Holo` on a dark state becomes the lowercase
`holo` theme. -/
theorem C10_witness :
    (runCommand (commands []) ("theme " ++ "Holo") (initState "dark" "" "")).theme =
      (if (["holo", "dark", "light"].contains (jsToLower "Holo")) = true then
        jsToLower "Holo"
       else (initState "dark" "" "").theme) ∧
    (runCommand (commands []) ("theme " ++ "Holo") (initState "dark" "" "")).lines =
      (initState "dark" "" "").lines ++ ["$ " ++ ("theme " ++ "Holo"),
        if (["holo", "dark", "light"].contains (jsToLower "Holo")) = true then
          "Theme set to " ++ jsToLower "Holo" ++ "."
        else "Usage: theme <holo|dark|light>"] :=
  C10_theme_lowercased (initState "dark" "" "") "Holo" (by decide) (by decide)

/-- C7: history navigation: pressing previous while not browsing enters
at the newest entry; at the oldest entry a further previous press is a
no-op; pressing next past the newest entry resets the cursor to the
sentinel and clears the input buffer; next below the newest moves to the
next newer entry; and the specification scenario holds: after 5 distinct
submissions, 5 previous presses then one next leave the input at the
2nd-oldest entry, and 5 further next presses leave the sentinel and an
empty input buffer. -/
theorem C7_history_navigation :
    (∀ (reg : List (String × Handler)) (st : EngineState),
        st.histIdx < 0 → st.history ≠ [] →
        onKeyDown reg .arrowUp st =
          { st with histIdx := (st.history.length : Int) - 1,
                    input := st.history.getD (st.history.length - 1) "" }) ∧
    (∀ (reg : List (String × Handler)) (st : EngineState),
        st.histIdx = 0 → st.history ≠ [] → st.input = st.history.getD 0 "" →
        onKeyDown reg .arrowUp st = st) ∧
    (∀ (reg : List (String × Handler)) (st : EngineState),
        0 ≤ st.histIdx → st.histIdx = (st.history.length : Int) - 1 →
        onKeyDown reg .arrowDown st = { st with histIdx := -1, input := "" }) ∧
    (∀ (reg : List (String × Handler)) (st : EngineState),
        0 ≤ st.histIdx → st.histIdx + 1 < (st.history.length : Int) →
        onKeyDown reg .arrowDown st =
          { st with histIdx := st.histIdx + 1,
                    input := st.history.getD (st.histIdx + 1).toNat "" }) ∧
    (pressAll (commands [])
        [.arrowUp, .arrowUp, .arrowUp, .arrowUp, .arrowUp, .arrowDown]
        (runAll (commands []) ["c1", "c2", "c3", "c4", "c5"]
          (initState "holo" "" ""))).input = "c2" ∧
    (pressAll (commands [])
        [.arrowUp, .arrowUp, .arrowUp, .arrowUp, .arrowUp,
         .arrowDown, .arrowDown, .arrowDown, .arrowDown, .arrowDown, .arrowDown]
        (runAll (commands []) ["c1", "c2", "c3", "c4", "c5"]
          (initState "holo" "" ""))).histIdx = -1 ∧
    (pressAll (commands [])
        [.arrowUp, .arrowUp, .arrowUp, .arrowUp, .arrowUp,
         .arrowDown, .arrowDown, .arrowDown, .arrowDown, .arrowDown, .arrowDown]
        (runAll (commands []) ["c1", "c2", "c3", "c4", "c5"]
          (initState "holo" "" ""))).input = "" := by
  refine ⟨?_, ?_, ?_, ?_, by decide, by decide, by decide⟩
  · intro reg st hlt hne
    have hn0 : ¬(st.history.length = 0) := by
      intro h0
      exact hne (List.length_eq_zero.mp h0)
    have htn : (((st.history.length : Int) - 1).toNat) = st.history.length - 1 := by
      omega
    unfold onKeyDown
    dsimp only
    rw [if_neg hn0, if_pos hlt, htn]
  · intro reg st hidx hne hinput
    have hn0 : ¬(st.history.length = 0) := by
      intro h0
      exact hne (List.length_eq_zero.mp h0)
    have hrec : ({ st with histIdx := (0 : Int), input := st.history.getD 0 "" } : EngineState) = st := by
      cases st
      simp_all
    unfold onKeyDown
    dsimp only
    rw [if_neg hn0, hidx]
    rw [if_neg (show ¬((0 : Int) < 0) by decide)]
    rw [show (max (0 : Int) (0 - 1)) = 0 from by decide]
    exact hrec
  · intro reg st hge hidx
    unfold onKeyDown
    dsimp only
    rw [if_neg (show ¬(st.histIdx < 0) by omega)]
    rw [if_pos (show (st.history.length : Int) ≤ st.histIdx + 1 by omega)]
  · intro reg st hge hlt
    unfold onKeyDown
    dsimp only
    rw [if_neg (show ¬(st.histIdx < 0) by omega)]
    rw [if_neg (show ¬((st.history.length : Int) ≤ st.histIdx + 1) by omega)]

/-- C7 witness: the enter-at-newest clause applied to a concrete
two-entry history. -/
theorem C7_witness :
    onKeyDown (commands []) .arrowUp
        { initState "holo" "" "" with history := ["x", "y"] } =
      { { initState "holo" "" "" with history := ["x", "y"] } with
          histIdx :=
            ((({ initState "holo" "" "" with
                history := ["x", "y"] } : EngineState).history.length : Int)) - 1,
          input := ({ initState "holo" "" "" with
              history := ["x", "y"] } : EngineState).history.getD
            (({ initState "holo" "" "" with
                history := ["x", "y"] } : EngineState).history.length - 1) "" } :=
  C7_history_navigation.1 (commands [])
    { initState "holo" "" "" with history := ["x", "y"] } (by decide) (by decide)

/-- C8 (amended): explicit completion on the first token of the input:
with exactly one prefix match the leading non-whitespace run of the
buffer is replaced by the match and the suggestion cleared — but only
when the buffer starts with the token; when the buffer starts with
whitespace the anchored replacement leaves the buffer unchanged.  With
two or more matches they are surfaced as a suggestion string joined by
two spaces, with the buffer untouched; with none the press is a no-op.
While typing, the suggestion is recomputed on every input change,
showing the unique match or nothing; the spec scenario over the keys
`help`/`history` behaves as described. -/
theorem C8_autocomplete_contract :
    (∀ (reg : List (String × Handler)) (st : EngineState) (m : String),
        (tokenize st.input).headD "" ≠ "" →
        (commandNames reg).filter
            (fun c => jsStartsWith c ((tokenize st.input).headD "")) = [m] →
        onKeyDown reg .tab st =
          { st with input := replaceLeadingRun st.input m, suggestion := "" }) ∧
    (∀ (reg : List (String × Handler)) (st : EngineState) (m1 m2 : String)
        (ms : List String),
        (tokenize st.input).headD "" ≠ "" →
        (commandNames reg).filter
            (fun c => jsStartsWith c ((tokenize st.input).headD "")) =
          m1 :: m2 :: ms →
        onKeyDown reg .tab st =
          { st with suggestion := String.intercalate "  " (m1 :: m2 :: ms) }) ∧
    (∀ (reg : List (String × Handler)) (st : EngineState),
        (tokenize st.input).headD "" ≠ "" →
        (commandNames reg).filter
            (fun c => jsStartsWith c ((tokenize st.input).headD "")) = [] →
        onKeyDown reg .tab st = st) ∧
    (∀ (input m : String) (c : Char) (rest : List Char),
        input.toList = c :: rest → c.isWhitespace = false →
        replaceLeadingRun input m =
          m ++ ((input.toList.dropWhile (fun x => !x.isWhitespace)).asString)) ∧
    (∀ (input m : String) (c : Char) (rest : List Char),
        input.toList = c :: rest → c.isWhitespace = true →
        replaceLeadingRun input m = input) ∧
    (onKeyDown (commands [("history", historyH)]) .tab
        { initState "holo" "" "" with input := "h" } =
      { initState "holo" "" "" with input := "h", suggestion := "help  history" }) ∧
    (onKeyDown (commands [("history", historyH)]) .tab
        { initState "holo" "" "" with input := "he" } =
      { initState "holo" "" "" with input := "help", suggestion := "" }) ∧
    (onInputChange (commands [("history", historyH)]) "he" (initState "holo" "" "") =
      { initState "holo" "" "" with input := "he", suggestion := "help" }) ∧
    (onInputChange (commands [("history", historyH)]) "h" (initState "holo" "" "") =
      { initState "holo" "" "" with input := "h", suggestion := "" }) := by
  refine ⟨?_, ?_, ?_, ?_, ?_, by decide, by decide, by decide, by decide⟩
  · intro reg st m h0 hfil
    unfold onKeyDown
    dsimp only
    rw [if_neg h0]
    simp only [hfil]
  · intro reg st m1 m2 ms h0 hfil
    unfold onKeyDown
    dsimp only
    rw [if_neg h0]
    simp only [hfil]
  · intro reg st h0 hfil
    unfold onKeyDown
    dsimp only
    rw [if_neg h0]
    simp only [hfil]
  · intro input m c rest hin hw
    unfold replaceLeadingRun
    simp only [hin, hw]
    rfl
  · intro input m c rest hin hw
    unfold replaceLeadingRun
    simp only [hin, hw]
    rfl

/-- C8 witness: the unique-match clause applied to the buffer `he` over
the registry extended with `history`. -/
theorem C8_witness :
    onKeyDown (commands [("history", historyH)]) .tab
        { initState "holo" "" "" with input := "he" } =
      { { initState "holo" "" "" with input := "he" } with
          input := replaceLeadingRun
            ({ initState "holo" "" "" with input := "he" } : EngineState).input "help",
          suggestion := "" } :=
  C8_autocomplete_contract.1 (commands [("history", historyH)])
    { initState "holo" "" "" with input := "he" } "help" (by decide) (by decide)

/-- C8 counterexample: with the buffer ` he` (leading space) the first
token is `he` and `help` is its unique match, yet a completion request
leaves the buffer at ` he` instead of replacing the token (the anchored
regex does not match a buffer that starts with whitespace). -/
theorem C8_counterexample :
    (tokenize " he").headD "" = "he" ∧
    (commandNames (commands [("history", historyH)])).filter
        (fun c => jsStartsWith c "he") = ["help"] ∧
    (onKeyDown (commands [("history", historyH)]) .tab
        { initState "holo" "" "" with input := " he" }).input = " he" ∧
    " he" ≠ " help" := by
  refine ⟨by decide, by decide, by decide, by decide⟩

/-- C9 (amended): under the default construction (no caller-supplied
commands) the `help` output lists every resolvable command name; the
output is the fixed menu, so it does not adapt to caller-supplied
registry additions. -/
theorem C9_help_lists_defaults :
    (runCommand (commands []) "help" (initState "holo" "" "")).lines =
      ["$ help"] ++ helpMenu ∧
    (commandNames (commands [])).all
      (fun n => helpMenu.any (fun l => occursIn n.toList l.toList)) = true := by
  refine ⟨by decide, by decide⟩

/-- C9 counterexample: a caller-supplied command `foo` is resolvable in
the registry, but the `help` output (the fixed menu) names it nowhere. -/
theorem C9_counterexample :
    ("foo" ∈ commandNames (commands [("foo", fooH)])) ∧
    (runCommand (commands [("foo", fooH)]) "help" (initState "holo" "" "")).lines =
      ["$ help"] ++ helpMenu ∧
    helpMenu.all (fun l => !(occursIn "foo".toList l.toList)) = true := by
  refine ⟨by decide, by decide, by decide⟩

end Terminal
